import Mathlib

/-!
# Overchess — verification of the attack-overlay core

A shallow embedding of the overchess repository's core logic:
the attack-geometry engine (`getPieceAttacks`, `getSlidingRayEndpoints`),
the attacker-index builder (`getAttackerMap`), the overlay renderer
(`updateOverlay`, in its two source variants), and the engine-proxy /
session glue (`applyStockfishMove`, the worker message listener).

Squares are modelled as (file, rank) integer pairs: the source's algebraic
square strings are in bijection with these pairs via
`String.fromCharCode(97 + f) + (r + 1)`, and every square string the code
builds or parses goes through exactly that bijection.  The board snapshot
is modelled as the rank-by-file grid `chess.board()` returns (row 0 is
rank 8), with JavaScript's optional-chaining / null semantics collapsed
into `Option`.
-/

set_option linter.unusedVariables false
set_option linter.unusedTactic false

namespace Overchess

/-- Piece color, as chess.js reports it: `'w'` or `'b'`. -/
inductive PColor where
  | w
  | b
deriving DecidableEq, Repr

/-- Piece type, as chess.js reports it: `'p' | 'n' | 'b' | 'r' | 'q' | 'k'`. -/
inductive PType where
  | p
  | n
  | b
  | r
  | q
  | k
deriving DecidableEq, Repr

/-- A square, identified by file (0–7, a–h) and rank (0–7, 1–8).
Models the two-character algebraic square strings of the source. -/
structure Sq where
  f : Int
  r : Int
deriving DecidableEq, Repr

/-- `toSq(f, r) = String.fromCharCode(97 + f) + (r + 1)` of the source:
builds the square value from file/rank coordinates. -/
def toSq (f r : Int) : Sq := ⟨f, r⟩

/-- A piece as it appears in a `chess.board()` cell:
`{ type, color, square }`. -/
structure Piece where
  type : PType
  color : PColor
  square : Sq
deriving DecidableEq, Repr

/-- The grid `chess.board()` returns: a list of rows, row 0 being rank 8;
each cell holds the piece standing there, if any. -/
abbrev BoardGrid := List (List (Option Piece))

/-- `inBounds` of the source: `f >= 0 && f < 8 && r >= 0 && r < 8`. -/
def inBounds (f r : Int) : Bool :=
  decide (0 ≤ f) && decide (f < 8) && decide (0 ≤ r) && decide (r < 8)

/-- JavaScript array indexing `l[i]` with an `Int` index: out-of-range or
negative indices give `undefined` (`none`). -/
def jsGet (l : List α) (i : Int) : Option α :=
  if 0 ≤ i then l[i.toNat]? else none

/-- `pieceAt(f, r) = boardGrid[7 - r]?.[f]` of the source; JavaScript's
`undefined` and `null` cells both collapse to `none`. -/
def pieceAt (g : BoardGrid) (f r : Int) : Option Piece :=
  match jsGet g (7 - r) with
  | none => none
  | some row =>
    match jsGet row f with
    | none => none
    | some cell => cell

/-- Truthiness of `pieceAt(f, r)` in the source's `if (pieceAt(f, r))`. -/
def occupied (g : BoardGrid) (f r : Int) : Bool :=
  (pieceAt g f r).isSome

/-- The knight jump offsets of `getPieceAttacks`, in source order. -/
def knightOffsets : List (Int × Int) :=
  [(-2, -1), (-2, 1), (-1, -2), (-1, 2), (1, -2), (1, 2), (2, -1), (2, 1)]

/-- The bishop ray directions, in source order. -/
def bishopDirs : List (Int × Int) :=
  [(-1, -1), (-1, 1), (1, -1), (1, 1)]

/-- The rook ray directions, in source order. -/
def rookDirs : List (Int × Int) :=
  [(-1, 0), (1, 0), (0, -1), (0, 1)]

/-- The queen ray directions, in source order. -/
def queenDirs : List (Int × Int) :=
  [(-1, -1), (-1, 1), (1, -1), (1, 1), (-1, 0), (1, 0), (0, -1), (0, 1)]

/-- The king jump offsets of `getPieceAttacks`, in source order. -/
def kingOffsets : List (Int × Int) :=
  [(-1, -1), (-1, 0), (-1, 1), (0, -1), (0, 1), (1, -1), (1, 0), (1, 1)]

/-- The `jump` helper of `getPieceAttacks`: pushes the offset square when
it is in bounds. -/
def jump (file rank df dr : Int) : List Sq :=
  if inBounds (file + df) (rank + dr) then [toSq (file + df) (rank + dr)] else []

/-- The body of the `slide` while-loop of `getPieceAttacks`, fuelled.
Fuel 8 is exact: along a nonzero direction at most 8 consecutive in-bounds
squares exist, so the while-loop never runs longer. -/
def slideGo (g : BoardGrid) (df dr : Int) (f r : Int) : Nat → List Sq
  | 0 => []
  | fuel + 1 =>
    if inBounds f r then
      toSq f r :: (if occupied g f r then [] else slideGo g df dr (f + df) (r + dr) fuel)
    else []

/-- The `slide` helper of `getPieceAttacks`: walk outward from
(file, rank) along direction (df, dr), pushing every in-bounds square and
stopping (inclusively) at the first occupied one. -/
def slide (g : BoardGrid) (file rank df dr : Int) : List Sq :=
  slideGo g df dr (file + df) (rank + dr) 8

/-- `getPieceAttacks(type, color, square)` of the source (part_000 lines
243–330; part_003 is textually identical), with the board snapshot
`chess.board()` passed explicitly. -/
def getPieceAttacks (type : PType) (color : PColor) (square : Sq) (g : BoardGrid) : List Sq :=
  let file := square.f
  let rank := square.r
  match type with
  | PType.p =>
    let dir : Int := match color with | PColor.w => 1 | PColor.b => -1
    jump file rank (-1) dir ++ jump file rank 1 dir
  | PType.n => knightOffsets.flatMap fun d => jump file rank d.1 d.2
  | PType.b => bishopDirs.flatMap fun d => slide g file rank d.1 d.2
  | PType.r => rookDirs.flatMap fun d => slide g file rank d.1 d.2
  | PType.q => queenDirs.flatMap fun d => slide g file rank d.1 d.2
  | PType.k => kingOffsets.flatMap fun d => jump file rank d.1 d.2

/-- The body of the `slideEnd` while-loop of `getSlidingRayEndpoints`,
fuelled like `slideGo`; the accumulator is the `last` variable
(`none` models the initial empty string). -/
def slideEndGo (g : BoardGrid) (df dr : Int) (f r : Int) : Nat → Option Sq → Option Sq
  | 0, last => last
  | fuel + 1, last =>
    if inBounds f r then
      if occupied g f r then some (toSq f r)
      else slideEndGo g df dr (f + df) (r + dr) fuel (some (toSq f r))
    else last

/-- The `slideEnd` helper of `getSlidingRayEndpoints`: the furthest square
reached along one ray, or `none` when the ray has no in-bounds square. -/
def slideEnd (g : BoardGrid) (file rank df dr : Int) : Option Sq :=
  slideEndGo g df dr (file + df) (rank + dr) 8 none

/-- The `dirs` record of `getSlidingRayEndpoints`: ray directions per
sliding type, `[]` for the types the record does not contain. -/
def slideDirs (type : PType) : List (Int × Int) :=
  match type with
  | PType.b => bishopDirs
  | PType.r => rookDirs
  | PType.q => queenDirs
  | _ => []

/-- `getSlidingRayEndpoints(type, color, square)` of the source (part_000
lines 332–381): for each ray direction of a sliding type, the endpoint of
the ray when the ray is nonempty. -/
def getSlidingRayEndpoints (type : PType) (color : PColor) (square : Sq) (g : BoardGrid) :
    List Sq :=
  (slideDirs type).filterMap fun d => slideEnd g square.f square.r d.1 d.2

/-! ## Attacker index builder (`getAttackerMap`, part_000 lines 383–399) -/

/-- The piece iteration order of the source:
`for (const row of chess.board()) for (const piece of row)`. -/
def boardPieces (g : BoardGrid) : List Piece :=
  g.flatMap fun row => row.filterMap id

/-- One per-square entry of the attacker map:
`{ w: Set<pieceType>, b: Set<pieceType> }`.  The JavaScript `Set` is
modelled as its insertion-order element list (duplicate adds ignored). -/
structure Entry where
  w : List PType
  b : List PType
deriving DecidableEq, Repr

/-- `Set.add`: append the element unless already present. -/
def setAdd (s : List PType) (t : PType) : List PType :=
  if t ∈ s then s else s ++ [t]

/-- Add a piece type to the entry's set for the given color. -/
def entryAdd (e : Entry) (c : PColor) (t : PType) : Entry :=
  match c with
  | PColor.w => { e with w := setAdd e.w t }
  | PColor.b => { e with b := setAdd e.b t }

/-- The `Map<string, {w, b}>` of `getAttackerMap`, as its insertion-order
association list. -/
abbrev AttackerMap := List (Sq × Entry)

/-- The `ensure(sq)` + `.add(type)` step of `getAttackerMap`: create the
square's entry on first touch (at the end, preserving insertion order),
then add the piece type to the color's set. -/
def mapAdd (m : AttackerMap) (sq : Sq) (c : PColor) (t : PType) : AttackerMap :=
  match m with
  | [] => [(sq, entryAdd ⟨[], []⟩ c t)]
  | (sq', e) :: rest =>
    if sq' = sq then (sq', entryAdd e c t) :: rest
    else (sq', e) :: mapAdd rest sq c t

/-- Record one piece: add its type, for its color, to the entry of every
square in its attack set. -/
def addPieceAttacks (g : BoardGrid) (m : AttackerMap) (piece : Piece) : AttackerMap :=
  (getPieceAttacks piece.type piece.color piece.square g).foldl
    (fun m' sq => mapAdd m' sq piece.color piece.type) m

/-- `getAttackerMap(excludeSquare?)` of the source: iterate every occupied
square, skip the piece standing on `excludeSquare`, and record each
remaining piece's attacks. -/
def getAttackerMap (g : BoardGrid) (excludeSquare : Option Sq) : AttackerMap :=
  (boardPieces g).foldl
    (fun m piece =>
      if some piece.square = excludeSquare then m else addPieceAttacks g m piece)
    []

/-- `map.has(sq)`: whether the attacker map holds an entry for `sq`. -/
def mapHas (m : AttackerMap) (sq : Sq) : Bool :=
  m.any fun p => decide (p.1 = sq)

/-- `map.get(sq)`: the entry stored for `sq`, if any. -/
def mapGet (m : AttackerMap) (sq : Sq) : Option Entry :=
  match m with
  | [] => none
  | (sq', e) :: rest => if sq' = sq then some e else mapGet rest sq

/-- The index obtained by iterating an explicit list of pieces over the
(unchanged) board snapshot `g` — the spec's description of what
`getAttackerMap` with an excluded square amounts to. -/
def buildIndexFromPieces (g : BoardGrid) (ps : List Piece) : AttackerMap :=
  ps.foldl (addPieceAttacks g) []

/-! ## Concrete board snapshots -/

/-- A `some` grid cell. -/
def cell (t : PType) (c : PColor) (f r : Int) : Option Piece :=
  some ⟨t, c, toSq f r⟩

/-- An empty board row. -/
def emptyRow : List (Option Piece) :=
  [none, none, none, none, none, none, none, none]

/-- The all-empty board. -/
def emptyBoard : BoardGrid :=
  [emptyRow, emptyRow, emptyRow, emptyRow, emptyRow, emptyRow, emptyRow, emptyRow]

/-- `chess.board()` on the standard starting position (row 0 is rank 8). -/
def startBoard : BoardGrid :=
  [ [cell PType.r PColor.b 0 7, cell PType.n PColor.b 1 7, cell PType.b PColor.b 2 7,
     cell PType.q PColor.b 3 7, cell PType.k PColor.b 4 7, cell PType.b PColor.b 5 7,
     cell PType.n PColor.b 6 7, cell PType.r PColor.b 7 7],
    [cell PType.p PColor.b 0 6, cell PType.p PColor.b 1 6, cell PType.p PColor.b 2 6,
     cell PType.p PColor.b 3 6, cell PType.p PColor.b 4 6, cell PType.p PColor.b 5 6,
     cell PType.p PColor.b 6 6, cell PType.p PColor.b 7 6],
    emptyRow, emptyRow, emptyRow, emptyRow,
    [cell PType.p PColor.w 0 1, cell PType.p PColor.w 1 1, cell PType.p PColor.w 2 1,
     cell PType.p PColor.w 3 1, cell PType.p PColor.w 4 1, cell PType.p PColor.w 5 1,
     cell PType.p PColor.w 6 1, cell PType.p PColor.w 7 1],
    [cell PType.r PColor.w 0 0, cell PType.n PColor.w 1 0, cell PType.b PColor.w 2 0,
     cell PType.q PColor.w 3 0, cell PType.k PColor.w 4 0, cell PType.b PColor.w 5 0,
     cell PType.n PColor.w 6 0, cell PType.r PColor.w 7 0] ]

/-- A board with a white rook on a1 and a black rook on a8: the a-file
squares between them are attacked by both colors ("contested"). -/
def twoRooksBoard : BoardGrid :=
  [ [cell PType.r PColor.b 0 7, none, none, none, none, none, none, none],
    emptyRow, emptyRow, emptyRow, emptyRow, emptyRow, emptyRow,
    [cell PType.r PColor.w 0 0, none, none, none, none, none, none, none] ]

/-- A board holding only a black rook on a8. -/
def blackRookBoard : BoardGrid :=
  [ [cell PType.r PColor.b 0 7, none, none, none, none, none, none, none],
    emptyRow, emptyRow, emptyRow, emptyRow, emptyRow, emptyRow, emptyRow ]

/-! ## Overlay renderer (part_000 lines 489–565) -/

/-- `settings.side` values. -/
inductive Side where
  | white
  | black
  | both
deriving DecidableEq, Repr

/-- `settings.style` values. -/
inductive Style where
  | squares
  | arrows
deriving DecidableEq, Repr

/-- The `OverlaySettings` type of the source. -/
structure OverlaySettings where
  side : Side
  style : Style
deriving DecidableEq, Repr

/-- The source's `defaultSettings`. -/
def defaultSettings : OverlaySettings :=
  ⟨Side.white, Style.squares⟩

/-- `PIECE_COLOR` of part_000 (and part_003): stroke color per piece
type, keyed for the white side. -/
def PIECE_COLOR (t : PType) : String :=
  match t with
  | PType.p => "#b088ff"
  | PType.n => "#00d4ff"
  | PType.b => "#00d4ff"
  | PType.r => "#ff00cc"
  | PType.q => "#ff00cc"
  | PType.k => "#ffe500"

/-- `BLACK_COLOR` of part_000: the single stroke color for all black
pieces. -/
def BLACK_COLOR : String := "#b5412d"

/-- Badge corner argument of `drawBadge`. -/
inductive Corner where
  | tl
  | tr
deriving DecidableEq, Repr

/-- One SVG element appended to a layer group, recorded as the arguments
of the draw-helper call that created it.  The x/y coordinates are the
`squareToXY` values (x = file, y = 7 − rank), which determine every
geometric attribute the helpers derive from them. -/
inductive Elem where
  | fill (sq : Sq) (fillAttr : String)
  | outlineRect (x y : Int) (color : String) (i total : Nat)
  | badge (x y : Int) (count : Nat) (bg fg : String) (corner : Corner)
  | arrow (src dst : Sq) (color : String)
  | knightCircle (sq : Sq) (color : String)
  | kingSquare (sq : Sq) (color : String)
  | outlineRectInset (x y : Int) (color : String) (i : Nat)
deriving DecidableEq, Repr

/-- The two layer groups: `fillGroup` and `outlineGroup` contents. -/
structure Layers where
  fills : List Elem
  outlines : List Elem
deriving DecidableEq, Repr

/-- The two `while (group.firstChild) group.removeChild(...)` loops at the
top of `updateOverlay`: both layers are emptied. -/
def clearLayers (prev : Layers) : Layers :=
  ⟨[], []⟩

/-- `squareToXY`: x = file, y = 7 − rank. -/
def squareToXY (sq : Sq) : Int × Int :=
  (sq.f, 7 - sq.r)

/-- The fill attribute chosen for a square: hatch when contested, green
tint when only white attacks, red tint when only black does. -/
def fillAttrFor (inW inB : Bool) : String :=
  if inW && inB then "url(#hatch-both)"
  else if inW then "rgba(80,200,80,0.35)"
  else "rgba(220,60,60,0.35)"

/-- The fill pass of part_000's `updateOverlay`: one rect per attacker-map
entry with at least one attacker. -/
def fillElems (m : AttackerMap) : List Elem :=
  m.filterMap fun p =>
    let inW := !p.2.w.isEmpty
    let inB := !p.2.b.isEmpty
    if !inW && !inB then none
    else some (Elem.fill p.1 (fillAttrFor inW inB))

/-- `[...new Set(colors)]`: insertion-order deduplication. -/
def jsUniqueAux (seen : List String) : List String → List String
  | [] => []
  | c :: rest =>
    if c ∈ seen then jsUniqueAux seen rest
    else c :: jsUniqueAux (seen ++ [c]) rest

/-- `[...new Set(colors)]` on a color list. -/
def jsUnique (l : List String) : List String :=
  jsUniqueAux [] l

/-- The `colors.forEach((color, i) => ...)` loop of
`drawMultiColorOutline`: one dashed rect per color, carrying its index and
the total color count (which fix the dash pattern). -/
def drawMCRects (x y : Int) (total : Nat) : Nat → List String → List Elem
  | _, [] => []
  | i, c :: rest => Elem.outlineRect x y c i total :: drawMCRects x y total (i + 1) rest

/-- `drawMultiColorOutline(x, y, colors)` of part_000. -/
def drawMultiColorOutline (x y : Int) (colors : List String) : List Elem :=
  drawMCRects x y colors.length 0 colors

/-- The squares-mode outline pass of part_000's `updateOverlay`, for one
attacker-map entry: dashed outlines for the deduplicated color list
(white piece colors only when `showW`; `BLACK_COLOR` whenever black has an
attacker), plus count badges on contested squares (the white badge only
when `showW`, the black badge always). -/
def squaresElems000 (showW : Bool) (p : Sq × Entry) : List Elem :=
  let xy := squareToXY p.1
  let colors : List String :=
    (if showW then p.2.w.map PIECE_COLOR else []) ++
      (if !p.2.b.isEmpty then [BLACK_COLOR] else [])
  let uniqueColors := jsUnique colors
  (if uniqueColors.length > 0 then drawMultiColorOutline xy.1 xy.2 uniqueColors else []) ++
    (if !p.2.w.isEmpty && !p.2.b.isEmpty then
      (if showW then [Elem.badge xy.1 xy.2 p.2.w.length "#ffffff" "#111111" Corner.tl]
       else []) ++
        [Elem.badge xy.1 xy.2 p.2.b.length "#111111" "#ffffff" Corner.tr]
     else [])

/-- The arrows-mode pass of part_000's `updateOverlay`, for one piece:
skipped when it stands on the excluded square or is white while white is
filtered out; knights/kings get one glyph per attacked square, pawns one
arrow per attacked square, sliding pieces one arrow per ray endpoint. -/
def arrowsElems000 (g : BoardGrid) (showW : Bool) (excludeSquare : Option Sq)
    (piece : Piece) : List Elem :=
  if some piece.square = excludeSquare then []
  else if piece.color = PColor.w && !showW then []
  else
    let strokeColor := if piece.color = PColor.b then BLACK_COLOR else PIECE_COLOR piece.type
    match piece.type with
    | PType.n =>
      (getPieceAttacks piece.type piece.color piece.square g).map fun sq =>
        Elem.knightCircle sq strokeColor
    | PType.k =>
      (getPieceAttacks piece.type piece.color piece.square g).map fun sq =>
        Elem.kingSquare sq strokeColor
    | PType.p =>
      (getPieceAttacks piece.type piece.color piece.square g).map fun sq =>
        Elem.arrow piece.square sq strokeColor
    | _ =>
      (getSlidingRayEndpoints piece.type piece.color piece.square g).map fun sq =>
        Elem.arrow piece.square sq strokeColor

/-- `updateOverlay(settings, excludeSquare?)` of part_000 (lines 492–565):
clear both layers, rebuild the attacker map, repaint fills (style- and
side-independent), then repaint outlines per the style.  `prev` is the
layer state before the call. -/
def updateOverlay (g : BoardGrid) (settings : OverlaySettings) (excludeSquare : Option Sq)
    (prev : Layers) : Layers :=
  let cleared := clearLayers prev
  let attackerMap := getAttackerMap g excludeSquare
  let showW := decide (settings.side ≠ Side.black)
  let outlines :=
    if settings.style = Style.squares then
      attackerMap.flatMap (squaresElems000 showW)
    else
      (boardPieces g).flatMap (arrowsElems000 g showW excludeSquare)
  ⟨cleared.fills ++ fillElems attackerMap, cleared.outlines ++ outlines⟩

end Overchess

namespace Overchess.V3

open Overchess

/-- `BLACK_COLOR` of part_003. -/
def BLACK_COLOR : String := "#ff2222"

/-- The file-major, rank-minor square enumeration of part_003's fill pass
(`for f = 0..7, for r = 1..8`). -/
def allSquares : List Sq :=
  (List.range 8).flatMap fun f => (List.range 8).map fun r => toSq f r

/-- The fill pass of part_003's `updateOverlay`: squares attacked per
`chess.isAttacked` (an external rules-engine query, passed in as `att`),
white-attacked squares first, then the remaining black-attacked ones. -/
def fillElemsV3 (att : Sq → PColor → Bool) : List Elem :=
  let wFill := allSquares.filter fun sq => att sq PColor.w
  let bFill := allSquares.filter fun sq => att sq PColor.b
  let union := wFill ++ bFill.filter fun sq => decide (sq ∉ wFill)
  union.map fun sq =>
    Elem.fill sq (fillAttrFor (decide (sq ∈ wFill)) (decide (sq ∈ bFill)))

/-- The `attackers.forEach(({color, type}, i) => ...)` loop of part_003's
squares mode: one inset outline per listed attacker. -/
def insetRects (x y : Int) : Nat → List (PColor × PType) → List Elem
  | _, [] => []
  | i, (c, t) :: rest =>
    Elem.outlineRectInset x y (if c = PColor.b then BLACK_COLOR else PIECE_COLOR t) i ::
      insetRects x y (i + 1) rest

/-- The squares-mode outline pass of part_003's `updateOverlay` for one
attacker-map entry: white attackers when `showW`, then black attackers
when `showB`, each drawn as a concentric inset outline. -/
def squaresElemsV3 (showW showB : Bool) (p : Sq × Entry) : List Elem :=
  let xy := squareToXY p.1
  let attackers : List (PColor × PType) :=
    (if showW then p.2.w.map fun t => (PColor.w, t) else []) ++
      (if showB then p.2.b.map fun t => (PColor.b, t) else [])
  insetRects xy.1 xy.2 0 attackers

/-- The arrows-mode pass of part_003's `updateOverlay` for one piece:
both colors are filtered by `settings.side`. -/
def arrowsElemsV3 (g : BoardGrid) (showW showB : Bool) (piece : Piece) : List Elem :=
  if piece.color = PColor.w && !showW then []
  else if piece.color = PColor.b && !showB then []
  else
    let strokeColor := if piece.color = PColor.b then BLACK_COLOR else PIECE_COLOR piece.type
    match piece.type with
    | PType.n =>
      (getPieceAttacks piece.type piece.color piece.square g).map fun sq =>
        Elem.knightCircle sq strokeColor
    | PType.k =>
      (getPieceAttacks piece.type piece.color piece.square g).map fun sq =>
        Elem.kingSquare sq strokeColor
    | PType.p =>
      (getPieceAttacks piece.type piece.color piece.square g).map fun sq =>
        Elem.arrow piece.square sq strokeColor
    | _ =>
      (getSlidingRayEndpoints piece.type piece.color piece.square g).map fun sq =>
        Elem.arrow piece.square sq strokeColor

/-- `updateOverlay(settings)` of part_003 (lines 444–533): clear both
layers, repaint fills from the rules engine's attack queries
(side-independent), then repaint outlines/arrows filtered by
`settings.side` on both colors. -/
def updateOverlay (g : BoardGrid) (att : Sq → PColor → Bool) (settings : OverlaySettings)
    (prev : Layers) : Layers :=
  let cleared := clearLayers prev
  let showW := decide (settings.side ≠ Side.black)
  let showB := decide (settings.side ≠ Side.white)
  let outlines :=
    if settings.style = Style.squares then
      (getAttackerMap g none).flatMap (squaresElemsV3 showW showB)
    else
      (boardPieces g).flatMap (arrowsElemsV3 g showW showB)
  ⟨cleared.fills ++ fillElemsV3 att, cleared.outlines ++ outlines⟩

end Overchess.V3

namespace Overchess

/-! ## Session controller and engine proxy (part_000 lines 26–130)

The chess.js instance and the board widget are external collaborators
(spec §6); they enter the model as an abstract rules-engine record over an
opaque chess-state type, with `move` returning `none` where the library
throws (chess.js `move()` validates the move and throws without mutating
on an illegal one). -/

/-- The accumulator loop behind JavaScript's `String.split(' ')`:
tokens are the maximal runs between single-space separators (adjacent or
trailing separators produce empty tokens, as in JavaScript). -/
def jsSplitAux (cur : List Char) : List Char → List String
  | [] => [String.mk cur]
  | c :: rest =>
    if c = ' ' then String.mk cur :: jsSplitAux [] rest
    else jsSplitAux (cur ++ [c]) rest

/-- `msg.split(' ')` of the worker listener. -/
def jsSplitSpace (s : String) : List String :=
  jsSplitAux [] s.data

/-- `s.startsWith(p)` of JavaScript, on the underlying character list. -/
def jsStartsWith (s p : String) : Bool :=
  p.data.isPrefixOf s.data

/-- The `{ from, to, promotion }` argument object of `chess.move`. -/
structure MoveArgs where
  fromS : String
  toS : String
  promotion : Option Char
deriving DecidableEq, Repr

/-- The chess.js operations the session controller consumes, over an
abstract chess-state type `σ`.  `move` is `none` exactly when the library
call throws. -/
structure RulesEngine (σ : Type) where
  move : σ → MoveArgs → Option σ
  fen : σ → String
  board : σ → BoardGrid
  isGameOver : σ → Bool
  isCheckmate : σ → Bool
  isStalemate : σ → Bool
  isCheck : σ → Bool
  turn : σ → PColor

/-- The observable session state: the authoritative chess state, the
proxy's readiness flag, the board widget's displayed position, the two
status text nodes, the overlay layers, and whether a re-enable-input
timeout is pending. -/
structure Session (σ : Type) where
  chess : σ
  stockfishReady : Bool
  boardPos : String
  turnText : String
  statusText : String
  layers : Layers
  inputPending : Bool
deriving DecidableEq, Repr

/-- `updateInfo()` of part_000 (lines 74–86): refresh the turn and status
text from the chess state. -/
def updateInfo (eng : RulesEngine σ) (st : Session σ) : Session σ :=
  if eng.isGameOver st.chess then
    { st with
      turnText := ""
      statusText :=
        if eng.isCheckmate st.chess then
          if eng.turn st.chess = PColor.w then "Checkmate — Black wins"
          else "Checkmate — White wins"
        else if eng.isStalemate st.chess then "Stalemate — draw"
        else "Draw" }
  else
    { st with
      turnText :=
        if eng.turn st.chess = PColor.w then "Your turn (White)" else "Stockfish thinking…"
      statusText := if eng.isCheck st.chess then "⚠ Check" else "" }

/-- The coordinate-move slicing of `applyStockfishMove`:
`from = uciMove.slice(0, 2)`, `to = uciMove.slice(2, 4)`,
`promotion = uciMove[4] ?? undefined`. -/
def parseUciMove (uciMove : String) : MoveArgs :=
  { fromS := uciMove.take 2
    toS := (uciMove.drop 2).take 2
    promotion := uciMove.toList[4]? }

/-- `applyStockfishMove(uciMove)` of part_000 (lines 57–71): apply the
engine's move inside a try/catch.  On success, push the new position to
the board widget, refresh the info texts, redraw the overlay, and, if the
game continues, schedule re-enabling input; when `chess.move` throws, only
log — every state component stays as it was. -/
def applyStockfishMove (eng : RulesEngine σ) (settings : OverlaySettings)
    (st : Session σ) (uciMove : String) : Session σ :=
  match eng.move st.chess (parseUciMove uciMove) with
  | none => st
  | some chess2 =>
    let st1 := { st with chess := chess2, boardPos := eng.fen chess2 }
    let st2 := updateInfo eng st1
    let st3 := { st2 with layers := updateOverlay (eng.board chess2) settings none st2.layers }
    if !eng.isGameOver chess2 then { st3 with inputPending := true } else st3

/-- The worker `message` listener of part_000 (lines 41–49): `uciok`
flips the readiness flag; a line starting with `bestmove` is split on
spaces and its second token taken as the move, ignored when absent, empty
or the `(none)` sentinel. -/
def onWorkerMessage (eng : RulesEngine σ) (settings : OverlaySettings)
    (st : Session σ) (msg : String) : Session σ :=
  let st1 := if msg = "uciok" then { st with stockfishReady := true } else st
  if jsStartsWith msg "bestmove" then
    match (jsSplitSpace msg)[1]? with
    | none => st1
    | some move =>
      if move = "" || move = "(none)" then st1
      else applyStockfishMove eng settings st1 move
  else st1

/-! ## Concrete instances used to exercise the session model -/

/-- A rules engine over a unit chess state whose `move` always throws:
the boundary case the error-handling claims are about. -/
def throwingEngine : RulesEngine Unit :=
  { move := fun _ _ => none
    fen := fun _ => ""
    board := fun _ => []
    isGameOver := fun _ => false
    isCheckmate := fun _ => false
    isStalemate := fun _ => false
    isCheck := fun _ => false
    turn := fun _ => PColor.w }

/-- A sample session state. -/
def sampleSession : Session Unit :=
  { chess := ()
    stockfishReady := true
    boardPos := "start"
    turnText := "Your turn (White)"
    statusText := ""
    layers := ⟨[], []⟩
    inputPending := false }

/-! ## Side classification of rendered elements -/

/-- Whether a part_000 outline-layer element belongs to the black side:
an outline or glyph stroked in `BLACK_COLOR`, or the black count badge
(dark background).  Elements part_000 never puts in the outline layer
classify as `false`. -/
def elemBlackSide000 (e : Elem) : Bool :=
  match e with
  | Elem.outlineRect _ _ c _ _ => decide (c = BLACK_COLOR)
  | Elem.badge _ _ _ bg _ _ => decide (bg = "#111111")
  | Elem.arrow _ _ c => decide (c = BLACK_COLOR)
  | Elem.knightCircle _ c => decide (c = BLACK_COLOR)
  | Elem.kingSquare _ c => decide (c = BLACK_COLOR)
  | _ => false

/-- Whether a part_003 outline-layer element belongs to the black side
(stroked in part_003's `BLACK_COLOR`). -/
def elemBlackSideV3 (e : Elem) : Bool :=
  match e with
  | Elem.outlineRectInset _ _ c _ => decide (c = V3.BLACK_COLOR)
  | Elem.arrow _ _ c => decide (c = V3.BLACK_COLOR)
  | Elem.knightCircle _ c => decide (c = V3.BLACK_COLOR)
  | Elem.kingSquare _ c => decide (c = V3.BLACK_COLOR)
  | _ => false

/-- Whether a part_003 outline-layer element belongs to the white side
(stroked in some color other than part_003's `BLACK_COLOR`; white piece
colors never coincide with it).  Elements part_003 never puts in the
outline layer classify as `false`. -/
def elemWhiteSideV3 (e : Elem) : Bool :=
  match e with
  | Elem.outlineRectInset _ _ c _ => decide (c ≠ V3.BLACK_COLOR)
  | Elem.arrow _ _ c => decide (c ≠ V3.BLACK_COLOR)
  | Elem.knightCircle _ c => decide (c ≠ V3.BLACK_COLOR)
  | Elem.kingSquare _ c => decide (c ≠ V3.BLACK_COLOR)
  | _ => false

/-! # Theorems -/

/-- C8: on the standard starting position, the white knight on b1 attacks
exactly a3, c3 and d2 (in the source's jump-offset order); d2, occupied by
the friendly d-pawn, is included as a controlled square. -/
theorem knight_b1_attacks_start :
    getPieceAttacks PType.n PColor.w (toSq 1 0) startBoard = [toSq 0 2, toSq 2 2, toSq 3 1] := by
  decide

/-- C10: for every piece type other than pawn, `getPieceAttacks` returns
the same sequence for white as for black — the color argument is consulted
only in the pawn branch. -/
theorem attacks_color_independent (t : PType) (ht : t ≠ PType.p) (sq : Sq) (g : BoardGrid) :
    getPieceAttacks t PColor.w sq g = getPieceAttacks t PColor.b sq g := by
  cases t
  · exact absurd rfl ht
  all_goals rfl

/-- Witness for `attacks_color_independent` at the knight on b1 over the
empty board. -/
theorem attacks_color_independent_witness :
    getPieceAttacks PType.n PColor.w (toSq 1 0) emptyBoard =
      getPieceAttacks PType.n PColor.b (toSq 1 0) emptyBoard :=
  attacks_color_independent PType.n (by decide) (toSq 1 0) emptyBoard

/-- C9: part_000's `updateOverlay` is idempotent — it fully clears both
layers before rebuilding them from its inputs, so a second call with
identical inputs leaves exactly the layer contents of the first, and the
result never depends on the pre-call layer contents. -/
theorem updateOverlay_idempotent (g : BoardGrid) (settings : OverlaySettings)
    (excludeSquare : Option Sq) (prev prev2 : Layers) :
    updateOverlay g settings excludeSquare (updateOverlay g settings excludeSquare prev) =
        updateOverlay g settings excludeSquare prev ∧
      updateOverlay g settings excludeSquare prev =
        updateOverlay g settings excludeSquare prev2 :=
  ⟨rfl, rfl⟩

/-- C6: when the rules engine's move application throws on an
engine-supplied move, `applyStockfishMove` leaves the whole session state
— chess position, displayed position, status texts, overlay layers, input
scheduling — exactly as it was. -/
theorem applyStockfishMove_throw_unchanged {σ : Type} (eng : RulesEngine σ)
    (settings : OverlaySettings) (st : Session σ) (uciMove : String)
    (h : eng.move st.chess (parseUciMove uciMove) = none) :
    applyStockfishMove eng settings st uciMove = st := by
  unfold applyStockfishMove
  rw [h]

/-- Witness for `applyStockfishMove_throw_unchanged`: an engine whose move
application always throws leaves the sample session untouched. -/
theorem applyStockfishMove_throw_unchanged_witness :
    applyStockfishMove throwingEngine defaultSettings sampleSession "e7e8q" = sampleSession :=
  applyStockfishMove_throw_unchanged throwingEngine defaultSettings sampleSession "e7e8q" rfl

/-- C7: for a worker reply line starting with `bestmove`, the listener
takes the second space-delimited token as the move; when that token is
absent, empty, or the `(none)` sentinel the reply is ignored and the
session state is completely unchanged, and otherwise the move is handed to
`applyStockfishMove`. -/
theorem bestmove_reply_handling {σ : Type} (eng : RulesEngine σ) (settings : OverlaySettings)
    (st : Session σ) (msg : String) (hb : jsStartsWith msg "bestmove" = true) :
    (((jsSplitSpace msg)[1]? = none ∨ (jsSplitSpace msg)[1]? = some "" ∨
        (jsSplitSpace msg)[1]? = some "(none)") →
      onWorkerMessage eng settings st msg = st) ∧
    ∀ mv, (jsSplitSpace msg)[1]? = some mv → mv ≠ "" → mv ≠ "(none)" →
      onWorkerMessage eng settings st msg = applyStockfishMove eng settings st mv := by
  have hne : msg ≠ "uciok" := by
    intro h
    rw [h] at hb
    exact absurd hb (by decide)
  constructor
  · intro hcase
    unfold onWorkerMessage
    rcases hcase with h1 | h1 | h1 <;> simp [hne, hb, h1]
  · intro mv hmv h1 h2
    unfold onWorkerMessage
    simp [hne, hb, hmv, h1, h2]

/-- Witness for `bestmove_reply_handling`: the `(none)` sentinel reply is
ignored without touching the session. -/
theorem bestmove_reply_handling_witness :
    onWorkerMessage throwingEngine defaultSettings sampleSession "bestmove (none)" =
      sampleSession :=
  (bestmove_reply_handling throwingEngine defaultSettings sampleSession "bestmove (none)"
      (by decide)).1 (Or.inr (Or.inr (by decide)))

/-- `getLast?` of a cons, phrased as the accumulator update the
`slideEnd` loop performs. -/
theorem getLast?_cons_match (a : α) (l : List α) :
    (a :: l).getLast? = match l.getLast? with | some x => some x | none => some a := by
  induction l generalizing a with
  | nil => rfl
  | cons b t ih => cases h : t.getLast? <;> simp [List.getLast?_cons_cons, ih, h]

/-- The `slideEnd` loop returns the last square the `slide` loop would
push, falling back to its accumulator when the walk pushes nothing. -/
theorem slideEndGo_eq (g : BoardGrid) (df dr : Int) :
    ∀ (fuel : Nat) (f r : Int) (last : Option Sq),
      slideEndGo g df dr f r fuel last =
        match (slideGo g df dr f r fuel).getLast? with
        | some x => some x
        | none => last := by
  intro fuel
  induction fuel with
  | zero => intro f r last; rfl
  | succ fuel ih =>
    intro f r last
    cases hin : inBounds f r with
    | false => simp [slideEndGo, slideGo, hin]
    | true =>
      cases hocc : occupied g f r with
      | true => simp [slideEndGo, slideGo, hin, hocc]
      | false =>
        simp only [slideEndGo, slideGo, hin, hocc, if_true, if_false, Bool.false_eq_true,
          ite_true, ite_false]
        rw [ih, getLast?_cons_match]
        cases h : (slideGo g df dr (f + df) (r + dr) fuel).getLast? <;> rfl

/-- Per ray: `slideEnd` is the last element of the `slide` walk. -/
theorem slideEnd_eq_getLast (g : BoardGrid) (file rank df dr : Int) :
    slideEnd g file rank df dr = (slide g file rank df dr).getLast? := by
  unfold slideEnd slide
  rw [slideEndGo_eq]
  cases h : (slideGo g df dr (file + df) (rank + dr) 8).getLast? <;> rfl

/-- C2 counterexample: a bishop on a1 over the empty board gets rays with
no in-bounds square, which contribute no endpoint — so
`getSlidingRayEndpoints` does not return one square per ray direction
(it returns 1 endpoint for 4 directions). -/
theorem rayEndpoints_counterexample :
    ¬ (getSlidingRayEndpoints PType.b PColor.w (toSq 0 0) emptyBoard).length =
        (slideDirs PType.b).length := by
  decide

/-- C2 (amended): for every sliding piece, `getSlidingRayEndpoints`
returns, per ray direction in source order, the last element the
`getPieceAttacks` walk produces for that ray — one square per ray that
contains at least one in-bounds square, and nothing for an empty ray;
for pawn, knight and king it returns the empty sequence. -/
theorem rayEndpoints_spec (g : BoardGrid) (c : PColor) (sq : Sq) :
    (∀ t, t ∈ [PType.b, PType.r, PType.q] →
      getSlidingRayEndpoints t c sq g =
        (slideDirs t).filterMap fun d => (slide g sq.f sq.r d.1 d.2).getLast?) ∧
    ∀ t, t ∈ [PType.p, PType.n, PType.k] → getSlidingRayEndpoints t c sq g = [] := by
  constructor
  · intro t ht
    unfold getSlidingRayEndpoints
    simp only [slideEnd_eq_getLast]
  · intro t ht
    fin_cases ht <;> rfl

/-- Witness for `rayEndpoints_spec`: the rook and the knight cases on the
starting position. -/
theorem rayEndpoints_spec_witness :
    getSlidingRayEndpoints PType.r PColor.w (toSq 0 0) startBoard =
        ((slideDirs PType.r).filterMap fun d =>
          (slide startBoard (toSq 0 0).f (toSq 0 0).r d.1 d.2).getLast?) ∧
      getSlidingRayEndpoints PType.n PColor.w (toSq 0 0) startBoard = [] :=
  ⟨(rayEndpoints_spec startBoard PColor.w (toSq 0 0)).1 PType.r (by decide),
   (rayEndpoints_spec startBoard PColor.w (toSq 0 0)).2 PType.n (by decide)⟩

/-- Folding with the exclusion test inlined equals folding over the
pre-filtered piece list. -/
theorem foldl_exclude_eq_filter (g : BoardGrid) (s : Sq) :
    ∀ (l : List Piece) (m : AttackerMap),
      (l.foldl
          (fun m' piece => if some piece.square = some s then m' else addPieceAttacks g m' piece)
          m) =
        (l.filter fun p => decide (p.square ≠ s)).foldl (addPieceAttacks g) m := by
  intro l
  induction l with
  | nil => intro m; rfl
  | cons p l ih =>
    intro m
    rw [List.foldl_cons, List.filter_cons]
    by_cases hp : p.square = s
    · rw [if_pos (by simp [hp] : some p.square = some s)]
      have hd : (decide (p.square ≠ s)) = false := by simp [hp]
      rw [hd]
      simp only [Bool.false_eq_true, if_false]
      exact ih m
    · rw [if_neg (by simp [hp] : ¬ some p.square = some s)]
      have hd : (decide (p.square ≠ s)) = true := by simp [hp]
      rw [hd]
      simp only [if_true]
      rw [List.foldl_cons]
      exact ih (addPieceAttacks g m p)

/-- C4: `getAttackerMap` with an excluded square equals the index built by
iterating every board piece except those standing on the excluded square,
over the unchanged board occupancy (the attack sets are still computed
against the full grid); without an exclusion it is the index over all
board pieces. -/
theorem attackerMap_exclude (g : BoardGrid) (s : Sq) :
    getAttackerMap g (some s) =
        buildIndexFromPieces g ((boardPieces g).filter fun p => decide (p.square ≠ s)) ∧
      getAttackerMap g none = buildIndexFromPieces g (boardPieces g) := by
  constructor
  · exact foldl_exclude_eq_filter g s (boardPieces g) []
  · unfold getAttackerMap buildIndexFromPieces
    have h : ∀ (l : List Piece) (m : AttackerMap),
        (l.foldl
            (fun m' piece => if some piece.square = none then m' else addPieceAttacks g m' piece)
            m) =
          l.foldl (addPieceAttacks g) m := by
      intro l
      induction l with
      | nil => intro m; rfl
      | cons p l ih => intro m; simp [List.foldl_cons, ih]
    exact h _ _

/-- `mapAdd` makes the key present and preserves every present key. -/
theorem mapHas_mapAdd_iff (m : AttackerMap) (sq x : Sq) (c : PColor) (t : PType) :
    mapHas (mapAdd m sq c t) x = true ↔ mapHas m x = true ∨ x = sq := by
  induction m with
  | nil => simp [mapAdd, mapHas, eq_comm]
  | cons q rest ih =>
    obtain ⟨sq', e⟩ := q
    by_cases h : sq' = sq
    · subst h
      simp only [mapAdd, if_true, reduceIte, mapHas, List.any_cons]
      constructor
      · exact fun hx => Or.inl hx
      · rintro (hx | rfl)
        · exact hx
        · simp
    · simp only [mapAdd, if_neg h]
      simp only [mapHas, List.any_cons] at ih ⊢
      rw [Bool.or_eq_true, Bool.or_eq_true, ih]
      tauto

/-- Folding a square list through `mapAdd` touches exactly the keys of
the accumulator plus the squares of the list. -/
theorem mapHas_foldl_mapAdd (c : PColor) (t : PType) (x : Sq) :
    ∀ (l : List Sq) (m : AttackerMap),
      mapHas (l.foldl (fun m' sq => mapAdd m' sq c t) m) x = true ↔
        mapHas m x = true ∨ x ∈ l := by
  intro l
  induction l with
  | nil => simp
  | cons a l ih =>
    intro m
    rw [List.foldl_cons, ih, mapHas_mapAdd_iff]
    simp [List.mem_cons]
    tauto

/-- Recording one piece touches exactly the keys of the accumulator plus
the piece's attacked squares. -/
theorem mapHas_addPieceAttacks (g : BoardGrid) (m : AttackerMap) (piece : Piece) (x : Sq) :
    mapHas (addPieceAttacks g m piece) x = true ↔
      mapHas m x = true ∨ x ∈ getPieceAttacks piece.type piece.color piece.square g :=
  mapHas_foldl_mapAdd piece.color piece.type x _ m

/-- Keys of the full piece fold: the accumulator's keys plus the squares
attacked by some non-skipped piece. -/
theorem mapHas_foldl_pieces (g : BoardGrid) (ex : Option Sq) (x : Sq) :
    ∀ (l : List Piece) (m : AttackerMap),
      mapHas
          (l.foldl
            (fun m' piece =>
              if some piece.square = ex then m' else addPieceAttacks g m' piece) m) x = true ↔
        mapHas m x = true ∨
          ∃ p ∈ l, ¬ some p.square = ex ∧ x ∈ getPieceAttacks p.type p.color p.square g := by
  intro l
  induction l with
  | nil => simp
  | cons p l ih =>
    intro m
    rw [List.foldl_cons]
    by_cases hp : some p.square = ex
    · rw [if_pos hp, ih]
      constructor
      · rintro (h | ⟨q, hq, he, hx⟩)
        · exact Or.inl h
        · exact Or.inr ⟨q, List.mem_cons_of_mem _ hq, he, hx⟩
      · rintro (h | ⟨q, hq, he, hx⟩)
        · exact Or.inl h
        · rcases List.mem_cons.mp hq with rfl | hq
          · exact absurd hp he
          · exact Or.inr ⟨q, hq, he, hx⟩
    · rw [if_neg hp, ih, mapHas_addPieceAttacks]
      simp only [List.mem_cons]
      constructor
      · rintro ((h | h) | ⟨q, hq, hqe, hqx⟩)
        · exact Or.inl h
        · exact Or.inr ⟨p, Or.inl rfl, hp, h⟩
        · exact Or.inr ⟨q, Or.inr hq, hqe, hqx⟩
      · rintro (h | ⟨q, (rfl | hq), hqe, hqx⟩)
        · exact Or.inl (Or.inl h)
        · exact Or.inl (Or.inr hqx)
        · exact Or.inr ⟨q, hq, hqe, hqx⟩

/-- `setAdd` never produces the empty set. -/
theorem setAdd_ne_nil (s : List PType) (t : PType) : setAdd s t ≠ [] := by
  unfold setAdd
  by_cases h : t ∈ s
  · rw [if_pos h]
    exact List.ne_nil_of_mem h
  · rw [if_neg h]
    simp

/-- An entry that just received a piece type is nonempty on some color. -/
theorem entryAdd_nonempty (e : Entry) (c : PColor) (t : PType) :
    (entryAdd e c t).w ≠ [] ∨ (entryAdd e c t).b ≠ [] := by
  cases c
  · exact Or.inl (setAdd_ne_nil _ _)
  · exact Or.inr (setAdd_ne_nil _ _)

/-- `mapAdd` preserves the all-entries-nonempty invariant. -/
theorem mapAdd_entries_nonempty (sq : Sq) (c : PColor) (t : PType) :
    ∀ (m : AttackerMap), (∀ q ∈ m, q.2.w ≠ [] ∨ q.2.b ≠ []) →
      ∀ q ∈ mapAdd m sq c t, q.2.w ≠ [] ∨ q.2.b ≠ [] := by
  intro m
  induction m with
  | nil =>
    intro _ q hq
    simp [mapAdd] at hq
    rw [hq]
    exact entryAdd_nonempty _ _ _
  | cons p rest ih =>
    obtain ⟨sq', e⟩ := p
    intro hm q hq
    by_cases h : sq' = sq
    · rw [mapAdd, if_pos h] at hq
      rcases List.mem_cons.mp hq with hq | hq
      · rw [hq]
        exact entryAdd_nonempty _ _ _
      · exact hm q (List.mem_cons_of_mem _ hq)
    · rw [mapAdd, if_neg h] at hq
      rcases List.mem_cons.mp hq with hq | hq
      · rw [hq]
        exact hm (sq', e) (List.mem_cons_self _ _)
      · exact ih (fun q' hq' => hm q' (List.mem_cons_of_mem _ hq')) q hq

/-- The inner square fold preserves the all-entries-nonempty invariant. -/
theorem foldl_mapAdd_entries_nonempty (c : PColor) (t : PType) :
    ∀ (l : List Sq) (m : AttackerMap), (∀ q ∈ m, q.2.w ≠ [] ∨ q.2.b ≠ []) →
      ∀ q ∈ l.foldl (fun m' sq => mapAdd m' sq c t) m, q.2.w ≠ [] ∨ q.2.b ≠ [] := by
  intro l
  induction l with
  | nil => intro m hm; exact hm
  | cons a l ih =>
    intro m hm
    rw [List.foldl_cons]
    exact ih _ (mapAdd_entries_nonempty a c t m hm)

/-- The outer piece fold preserves the all-entries-nonempty invariant. -/
theorem foldl_pieces_entries_nonempty (g : BoardGrid) (ex : Option Sq) :
    ∀ (l : List Piece) (m : AttackerMap), (∀ q ∈ m, q.2.w ≠ [] ∨ q.2.b ≠ []) →
      ∀ q ∈ l.foldl
          (fun m' piece => if some piece.square = ex then m' else addPieceAttacks g m' piece) m,
        q.2.w ≠ [] ∨ q.2.b ≠ [] := by
  intro l
  induction l with
  | nil => intro m hm; exact hm
  | cons p l ih =>
    intro m hm
    rw [List.foldl_cons]
    by_cases hp : some p.square = ex
    · rw [if_pos hp]
      exact ih m hm
    · rw [if_neg hp]
      exact ih _ (foldl_mapAdd_entries_nonempty p.color p.type _ m hm)

/-- C3: with no excluded square, a square has an entry in the attacker
index exactly when some board piece's attack set contains it; every entry
stored in the index is nonempty for at least one color; and a square can
hold nonempty sets for both colors at once (the two-rooks board's a4
entry lists a rook attacker of each color). -/
theorem attackerIndex_iff_attacked :
    (∀ (g : BoardGrid) (x : Sq),
      (mapHas (getAttackerMap g none) x = true ↔
        ∃ p ∈ boardPieces g, x ∈ getPieceAttacks p.type p.color p.square g) ∧
      ∀ e, (x, e) ∈ getAttackerMap g none → e.w ≠ [] ∨ e.b ≠ []) ∧
    mapGet (getAttackerMap twoRooksBoard none) (toSq 0 3) =
      some ⟨[PType.r], [PType.r]⟩ := by
  constructor
  · intro g x
    constructor
    · rw [getAttackerMap, mapHas_foldl_pieces]
      simp [mapHas]
    · intro e he
      exact foldl_pieces_entries_nonempty g none (boardPieces g) [] (by simp) (x, e) he
  · decide

/-- Witness for `attackerIndex_iff_attacked` on the two-rooks board at
a4: the entry exists (the white rook on a1 attacks a4) and the stored
entry is nonempty. -/
theorem attackerIndex_iff_attacked_witness :
    mapHas (getAttackerMap twoRooksBoard none) (toSq 0 3) = true ∧
      ((⟨[PType.r], [PType.r]⟩ : Entry).w ≠ [] ∨ (⟨[PType.r], [PType.r]⟩ : Entry).b ≠ []) :=
  ⟨(attackerIndex_iff_attacked.1 twoRooksBoard (toSq 0 3)).1.mpr
      ⟨⟨PType.r, PColor.w, toSq 0 0⟩, by decide, by decide⟩,
   (attackerIndex_iff_attacked.1 twoRooksBoard (toSq 0 3)).2 ⟨[PType.r], [PType.r]⟩
      (by decide)⟩

/-- Unfolding equation of the `slide` while-loop body. -/
theorem slideGo_succ (g : BoardGrid) (df dr f r : Int) (fuel : Nat) :
    slideGo g df dr f r (fuel + 1) =
      if inBounds f r then
        toSq f r :: (if occupied g f r then [] else slideGo g df dr (f + df) (r + dr) fuel)
      else [] := rfl

/-- Complete characterization of the squares pushed by the `slide` loop:
the position `i` steps past the start belongs to the output exactly when
every step up to it is in bounds and every strictly earlier step is
unoccupied (and the fuel allows reaching it). -/
theorem slideGo_mem (g : BoardGrid) (df dr : Int) :
    ∀ (fuel : Nat) (f r : Int) (x : Sq),
      x ∈ slideGo g df dr f r fuel ↔
        ∃ i : Nat, i < fuel ∧ x = toSq (f + i * df) (r + i * dr) ∧
          (∀ j : Nat, j ≤ i → inBounds (f + j * df) (r + j * dr) = true) ∧
          (∀ j : Nat, j < i → occupied g (f + j * df) (r + j * dr) = false) := by
  intro fuel
  induction fuel with
  | zero =>
    intro f r x
    simp [slideGo]
  | succ fuel ih =>
    intro f r x
    cases hin : inBounds f r with
    | false =>
      rw [slideGo_succ, if_neg (by simp [hin])]
      simp only [List.not_mem_nil, false_iff]
      rintro ⟨i, _, _, hib, _⟩
      have h0 := hib 0 (Nat.zero_le _)
      simp [hin] at h0
    | true =>
      cases hocc : occupied g f r with
      | true =>
        rw [slideGo_succ, if_pos (by simp [hin]), if_pos (by simp [hocc])]
        constructor
        · intro hx
          rcases List.mem_singleton.mp hx with rfl
          refine ⟨0, Nat.succ_pos _, by simp, ?_, ?_⟩
          · intro j hj
            have hj0 : j = 0 := Nat.le_zero.mp hj
            subst hj0
            simpa using hin
          · intro j hj
            exact absurd hj (Nat.not_lt_zero j)
        · rintro ⟨i, hi, hx, hib, hoc⟩
          cases i with
          | zero =>
            simp only [Nat.cast_zero, zero_mul, add_zero] at hx
            simp [hx]
          | succ i =>
            have h0 := hoc 0 (Nat.succ_pos _)
            simp [hocc] at h0
      | false =>
        rw [slideGo_succ, if_pos (by simp [hin]), if_neg (by simp [hocc]), List.mem_cons,
          ih (f + df) (r + dr) x]
        constructor
        · rintro (rfl | ⟨i, hi, hx, hib, hoc⟩)
          · refine ⟨0, Nat.succ_pos _, by simp, ?_, ?_⟩
            · intro j hj
              have hj0 : j = 0 := Nat.le_zero.mp hj
              subst hj0
              simpa using hin
            · intro j hj
              exact absurd hj (Nat.not_lt_zero j)
          · refine ⟨i + 1, by omega, ?_, ?_, ?_⟩
            · rw [hx]
              simp only [toSq, Sq.mk.injEq]
              constructor <;> push_cast <;> ring
            · intro j hj
              cases j with
              | zero => simpa using hin
              | succ j =>
                have hb := hib j (by omega)
                push_cast
                push_cast at hb
                have e1 : f + ((j : Int) + 1) * df = f + df + (j : Int) * df := by ring
                have e2 : r + ((j : Int) + 1) * dr = r + dr + (j : Int) * dr := by ring
                rw [e1, e2]
                exact hb
            · intro j hj
              cases j with
              | zero => simpa using hocc
              | succ j =>
                have hb := hoc j (by omega)
                push_cast
                push_cast at hb
                have e1 : f + ((j : Int) + 1) * df = f + df + (j : Int) * df := by ring
                have e2 : r + ((j : Int) + 1) * dr = r + dr + (j : Int) * dr := by ring
                rw [e1, e2]
                exact hb
        · rintro ⟨i, hi, hx, hib, hoc⟩
          cases i with
          | zero =>
            left
            simp only [Nat.cast_zero, zero_mul, add_zero] at hx
            exact hx
          | succ i =>
            right
            refine ⟨i, by omega, ?_, ?_, ?_⟩
            · rw [hx]
              simp only [toSq, Sq.mk.injEq]
              constructor <;> push_cast <;> ring
            · intro j hj
              have hb := hib (j + 1) (by omega)
              push_cast at hb
              have e1 : f + ((j : Int) + 1) * df = f + df + (j : Int) * df := by ring
              have e2 : r + ((j : Int) + 1) * dr = r + dr + (j : Int) * dr := by ring
              rw [e1, e2] at hb
              push_cast
              exact hb
            · intro j hj
              have hb := hoc (j + 1) (by omega)
              push_cast at hb
              have e1 : f + ((j : Int) + 1) * df = f + df + (j : Int) * df := by ring
              have e2 : r + ((j : Int) + 1) * dr = r + dr + (j : Int) * dr := by ring
              rw [e1, e2] at hb
              push_cast
              exact hb

/-- Along a nonzero unit direction, a run of consecutive in-bounds
positions has length at most 8 — the fuel of the `slide` loop is never
the binding constraint. -/
theorem inBounds_run_lt_8 (df dr : Int)
    (hdf : df = -1 ∨ df = 0 ∨ df = 1) (hdr : dr = -1 ∨ dr = 0 ∨ dr = 1)
    (hne : ¬(df = 0 ∧ dr = 0)) (f r : Int) (i : Nat)
    (hib : ∀ j : Nat, j ≤ i → inBounds (f + j * df) (r + j * dr) = true) : i < 8 := by
  have h0 := hib 0 (Nat.zero_le _)
  have hi := hib i (le_refl _)
  simp only [inBounds, Bool.and_eq_true, decide_eq_true_eq, Nat.cast_zero, zero_mul,
    add_zero] at h0 hi
  rcases hdf with rfl | rfl | rfl <;> rcases hdr with rfl | rfl | rfl <;> omega

/-- Membership in a full ray of `slide`: the k-th square of the ray
(k ≥ 1) is produced exactly when every ray square up to it is in bounds
and every strictly earlier ray square is unoccupied.  Direction
components are the source's unit offsets. -/
theorem slide_mem_iff (g : BoardGrid) (f0 r0 df dr : Int)
    (hdf : df = -1 ∨ df = 0 ∨ df = 1) (hdr : dr = -1 ∨ dr = 0 ∨ dr = 1)
    (hne : ¬(df = 0 ∧ dr = 0)) (k : Nat) (hk : 1 ≤ k) :
    toSq (f0 + k * df) (r0 + k * dr) ∈ slide g f0 r0 df dr ↔
      (∀ j : Nat, 1 ≤ j → j ≤ k → inBounds (f0 + j * df) (r0 + j * dr) = true) ∧
      ∀ j : Nat, 1 ≤ j → j < k → occupied g (f0 + j * df) (r0 + j * dr) = false := by
  obtain ⟨k, rfl⟩ : ∃ k', k = k' + 1 := ⟨k - 1, by omega⟩
  unfold slide
  rw [slideGo_mem]
  constructor
  · rintro ⟨i, hi8, hx, hib, hoc⟩
    have hxe : f0 + ((k + 1 : Nat) : Int) * df = f0 + df + (i : Int) * df ∧
        r0 + ((k + 1 : Nat) : Int) * dr = r0 + dr + (i : Int) * dr := by
      simpa only [toSq, Sq.mk.injEq] using hx
    have hik : i = k := by
      rcases hxe with ⟨h1, h2⟩
      push_cast at h1 h2
      rcases hdf with rfl | rfl | rfl <;> rcases hdr with rfl | rfl | rfl <;> omega
    subst hik
    constructor
    · intro j hj1 hjk
      obtain ⟨j, rfl⟩ : ∃ j', j = j' + 1 := ⟨j - 1, by omega⟩
      have hb := hib j (by omega)
      push_cast at hb
      push_cast
      have e1 : f0 + ((j : Int) + 1) * df = f0 + df + (j : Int) * df := by ring
      have e2 : r0 + ((j : Int) + 1) * dr = r0 + dr + (j : Int) * dr := by ring
      rw [e1, e2]
      exact hb
    · intro j hj1 hjk
      obtain ⟨j, rfl⟩ : ∃ j', j = j' + 1 := ⟨j - 1, by omega⟩
      have hb := hoc j (by omega)
      push_cast at hb
      push_cast
      have e1 : f0 + ((j : Int) + 1) * df = f0 + df + (j : Int) * df := by ring
      have e2 : r0 + ((j : Int) + 1) * dr = r0 + dr + (j : Int) * dr := by ring
      rw [e1, e2]
      exact hb
  · rintro ⟨hib, hoc⟩
    refine ⟨k, ?_, ?_, ?_, ?_⟩
    · refine inBounds_run_lt_8 df dr hdf hdr hne (f0 + df) (r0 + dr) k ?_
      intro j hj
      have hb := hib (j + 1) (by omega) (by omega)
      push_cast at hb
      have e1 : f0 + ((j : Int) + 1) * df = f0 + df + (j : Int) * df := by ring
      have e2 : r0 + ((j : Int) + 1) * dr = r0 + dr + (j : Int) * dr := by ring
      rw [e1, e2] at hb
      push_cast
      exact hb
    · simp only [toSq, Sq.mk.injEq]
      constructor <;> push_cast <;> ring
    · intro j hj
      have hb := hib (j + 1) (by omega) (by omega)
      push_cast at hb
      have e1 : f0 + ((j : Int) + 1) * df = f0 + df + (j : Int) * df := by ring
      have e2 : r0 + ((j : Int) + 1) * dr = r0 + dr + (j : Int) * dr := by ring
      rw [e1, e2] at hb
      push_cast
      exact hb
    · intro j hj
      have hb := hoc (j + 1) (by omega) (by omega)
      push_cast at hb
      have e1 : f0 + ((j : Int) + 1) * df = f0 + df + (j : Int) * df := by ring
      have e2 : r0 + ((j : Int) + 1) * dr = r0 + dr + (j : Int) * dr := by ring
      rw [e1, e2] at hb
      push_cast
      exact hb

/-- C1: for every sliding piece, the attack sequence is the concatenation
of the per-direction ray walks, and each ray contains exactly the ray
squares up to and including the first occupied one — a ray square is
produced iff every ray square up to it is in bounds and all strictly
closer ray squares are empty (so an unblocked ray runs to the board
edge, and nothing past the first occupant is ever produced). -/
theorem sliding_ray_blocking (g : BoardGrid) (t : PType)
    (ht : t ∈ [PType.b, PType.r, PType.q]) (c : PColor) (sq : Sq)
    (hsq : inBounds sq.f sq.r = true) :
    getPieceAttacks t c sq g =
        ((slideDirs t).flatMap fun d => slide g sq.f sq.r d.1 d.2) ∧
      ∀ d ∈ slideDirs t, ∀ k : Nat, 1 ≤ k →
        (toSq (sq.f + k * d.1) (sq.r + k * d.2) ∈ slide g sq.f sq.r d.1 d.2 ↔
          (∀ j : Nat, 1 ≤ j → j ≤ k → inBounds (sq.f + j * d.1) (sq.r + j * d.2) = true) ∧
          ∀ j : Nat, 1 ≤ j → j < k → occupied g (sq.f + j * d.1) (sq.r + j * d.2) = false) := by
  constructor
  · fin_cases ht <;> rfl
  · intro d hd k hk
    have hdd : (d.1 = -1 ∨ d.1 = 0 ∨ d.1 = 1) ∧ (d.2 = -1 ∨ d.2 = 0 ∨ d.2 = 1) ∧
        ¬(d.1 = 0 ∧ d.2 = 0) := by
      fin_cases ht <;> fin_cases hd <;> decide
    exact slide_mem_iff g sq.f sq.r d.1 d.2 hdd.1 hdd.2.1 hdd.2.2 k hk

/-- Witness for `sliding_ray_blocking`: the queen on d4 over the starting
position. -/
theorem sliding_ray_blocking_witness :
    getPieceAttacks PType.q PColor.w (toSq 3 3) startBoard =
      ((slideDirs PType.q).flatMap fun d => slide startBoard (toSq 3 3).f (toSq 3 3).r d.1 d.2) :=
  (sliding_ray_blocking startBoard PType.q (by decide) PColor.w (toSq 3 3) (by decide)).1

/-- With white filtered out, part_000's squares-mode pass reduces to the
black outline (when black attacks) plus the black count badge (when
contested). -/
theorem squaresElems000_false_eq (p : Sq × Entry) :
    squaresElems000 false p =
      (if p.2.b.isEmpty then []
       else [Elem.outlineRect (squareToXY p.1).1 (squareToXY p.1).2 BLACK_COLOR 0 1]) ++
        (if p.2.w.isEmpty || p.2.b.isEmpty then []
         else
           [Elem.badge (squareToXY p.1).1 (squareToXY p.1).2 p.2.b.length "#111111" "#ffffff"
             Corner.tr]) := by
  unfold squaresElems000
  cases hb : p.2.b.isEmpty <;> cases hw : p.2.w.isEmpty <;>
    simp [hb, hw, jsUnique, jsUniqueAux, drawMultiColorOutline, drawMCRects]

/-- With white filtered out, part_000's squares-mode pass emits only
black-side elements. -/
theorem squaresElems000_black (p : Sq × Entry) :
    ∀ e ∈ squaresElems000 false p, elemBlackSide000 e = true := by
  intro e he
  rw [squaresElems000_false_eq] at he
  rcases List.mem_append.mp he with h | h
  · cases hb : p.2.b.isEmpty
    · rw [hb] at h
      simp at h
      rw [h]
      rfl
    · rw [hb] at h
      simp at h
  · cases hc : (p.2.w.isEmpty || p.2.b.isEmpty)
    · rw [hc] at h
      simp at h
      rw [h]
      rfl
    · rw [hc] at h
      simp at h

/-- With white filtered out, part_000's arrows-mode pass emits only
black-side elements (white pieces are skipped, black ones stroke in
`BLACK_COLOR`). -/
theorem arrowsElems000_black (g : BoardGrid) (ex : Option Sq) (piece : Piece) :
    ∀ e ∈ arrowsElems000 g false ex piece, elemBlackSide000 e = true := by
  intro e he
  unfold arrowsElems000 at he
  by_cases hex : some piece.square = ex
  · rw [if_pos hex] at he
    simp at he
  · rw [if_neg hex] at he
    cases hc : piece.color
    · simp [hc] at he
    · cases ht : piece.type <;> simp [hc, ht] at he <;> (obtain ⟨sq, hsq, rfl⟩ := he; rfl)

/-- Each element of part_003's `insetRects` loop comes from one listed
attacker, stroked in its side's color. -/
theorem insetRects_mem (x y : Int) :
    ∀ (l : List (PColor × PType)) (i : Nat) (e : Elem), e ∈ V3.insetRects x y i l →
      ∃ ct ∈ l, ∃ j, e = Elem.outlineRectInset x y
        (if ct.1 = PColor.b then V3.BLACK_COLOR else PIECE_COLOR ct.2) j := by
  intro l
  induction l with
  | nil =>
    intro i e he
    simp [V3.insetRects] at he
  | cons a l ih =>
    intro i e he
    obtain ⟨c, t⟩ := a
    rcases List.mem_cons.mp he with rfl | h
    · exact ⟨(c, t), List.mem_cons_self _ _, i, rfl⟩
    · obtain ⟨ct, hct, j, hj⟩ := ih (i + 1) e h
      exact ⟨ct, List.mem_cons_of_mem _ hct, j, hj⟩

/-- With `side = black`, part_003's squares-mode pass lists only black
attackers, all stroked in part_003's `BLACK_COLOR`. -/
theorem squaresElemsV3_black (p : Sq × Entry) :
    ∀ e ∈ V3.squaresElemsV3 false true p, elemBlackSideV3 e = true := by
  intro e he
  unfold V3.squaresElemsV3 at he
  simp only [Bool.false_eq_true, if_false, if_true, ite_true, ite_false,
    List.nil_append] at he
  obtain ⟨ct, hct, j, rfl⟩ := insetRects_mem _ _ _ _ _ he
  simp only [List.mem_map] at hct
  obtain ⟨t, ht, rfl⟩ := hct
  rfl

/-- With `side = white`, part_003's squares-mode pass lists only white
attackers, stroked in the piece-type palette, never in `BLACK_COLOR`. -/
theorem squaresElemsV3_white (p : Sq × Entry) :
    ∀ e ∈ V3.squaresElemsV3 true false p, elemWhiteSideV3 e = true := by
  intro e he
  unfold V3.squaresElemsV3 at he
  simp only [Bool.false_eq_true, if_false, if_true, ite_true, ite_false,
    List.append_nil] at he
  obtain ⟨ct, hct, j, rfl⟩ := insetRects_mem _ _ _ _ _ he
  simp only [List.mem_map] at hct
  obtain ⟨t, ht, rfl⟩ := hct
  cases t <;> rfl

/-- With `side = black`, part_003's arrows-mode pass emits only
black-side elements. -/
theorem arrowsElemsV3_black (g : BoardGrid) (piece : Piece) :
    ∀ e ∈ V3.arrowsElemsV3 g false true piece, elemBlackSideV3 e = true := by
  intro e he
  unfold V3.arrowsElemsV3 at he
  cases hc : piece.color
  · simp [hc] at he
  · cases ht : piece.type <;> simp [hc, ht] at he <;> (obtain ⟨sq, hsq, rfl⟩ := he; rfl)

/-- With `side = white`, part_003's arrows-mode pass emits only
white-side elements. -/
theorem arrowsElemsV3_white (g : BoardGrid) (piece : Piece) :
    ∀ e ∈ V3.arrowsElemsV3 g true false piece, elemWhiteSideV3 e = true := by
  intro e he
  unfold V3.arrowsElemsV3 at he
  cases hc : piece.color
  · cases ht : piece.type <;> simp [hc, ht] at he <;> (obtain ⟨sq, hsq, rfl⟩ := he; rfl)
  · simp [hc] at he

/-- C5 counterexample: part_000 with `side = 'white'` still draws black
outlines.  On a board holding only the black rook on a8, squares mode with
`side = 'white'` draws the `BLACK_COLOR` outline on a1 (grid position
x = 0, y = 7). -/
theorem overlay_side_filter_counterexample :
    Elem.outlineRect 0 7 BLACK_COLOR 0 1 ∈
      (updateOverlay blackRookBoard ⟨Side.white, Style.squares⟩ none ⟨[], []⟩).outlines := by
  decide

/-- C5 (amended): part_000's fill layer is independent of the settings
(side and style alike); part_000 filters only the white side — with
`side = 'black'` every outline/arrow element is black's, but black
elements are drawn for every side value (see the counterexample);
part_003's fill layer is settings-independent and its outline/arrow pass
filters both sides: `side = 'white'` draws only white-side elements and
`side = 'black'` only black-side ones. -/
theorem overlay_side_filter (g : BoardGrid) (att : Sq → PColor → Bool)
    (s1 s2 : OverlaySettings) (ex : Option Sq) (prev1 prev2 : Layers) (style : Style) :
    ((updateOverlay g s1 ex prev1).fills = (updateOverlay g s2 ex prev2).fills) ∧
      (∀ e ∈ (updateOverlay g ⟨Side.black, style⟩ ex prev1).outlines,
        elemBlackSide000 e = true) ∧
      ((V3.updateOverlay g att s1 prev1).fills = (V3.updateOverlay g att s2 prev2).fills) ∧
      (∀ e ∈ (V3.updateOverlay g att ⟨Side.white, style⟩ prev1).outlines,
        elemWhiteSideV3 e = true) ∧
      ∀ e ∈ (V3.updateOverlay g att ⟨Side.black, style⟩ prev1).outlines,
        elemBlackSideV3 e = true := by
  refine ⟨rfl, ?_, rfl, ?_, ?_⟩
  · intro e he
    cases style
    · obtain ⟨p, hp, hep⟩ :=
        List.mem_flatMap.mp
          (show e ∈ (getAttackerMap g ex).flatMap (squaresElems000 false) from he)
      exact squaresElems000_black p e hep
    · obtain ⟨p, hp, hep⟩ :=
        List.mem_flatMap.mp
          (show e ∈ (boardPieces g).flatMap (arrowsElems000 g false ex) from he)
      exact arrowsElems000_black g ex p e hep
  · intro e he
    cases style
    · obtain ⟨p, hp, hep⟩ :=
        List.mem_flatMap.mp
          (show e ∈ (getAttackerMap g none).flatMap (V3.squaresElemsV3 true false) from he)
      exact squaresElemsV3_white p e hep
    · obtain ⟨p, hp, hep⟩ :=
        List.mem_flatMap.mp
          (show e ∈ (boardPieces g).flatMap (V3.arrowsElemsV3 g true false) from he)
      exact arrowsElemsV3_white g p e hep
  · intro e he
    cases style
    · obtain ⟨p, hp, hep⟩ :=
        List.mem_flatMap.mp
          (show e ∈ (getAttackerMap g none).flatMap (V3.squaresElemsV3 false true) from he)
      exact squaresElemsV3_black p e hep
    · obtain ⟨p, hp, hep⟩ :=
        List.mem_flatMap.mp
          (show e ∈ (boardPieces g).flatMap (V3.arrowsElemsV3 g false true) from he)
      exact arrowsElemsV3_black g p e hep

/-- Witness for `overlay_side_filter`: on the black-rook board, fills
agree across settings, and the a1 outline drawn under `side = 'black'` is
a black-side element. -/
theorem overlay_side_filter_witness :
    ((updateOverlay blackRookBoard ⟨Side.white, Style.squares⟩ none ⟨[], []⟩).fills =
        (updateOverlay blackRookBoard ⟨Side.black, Style.arrows⟩ none ⟨[], []⟩).fills) ∧
      elemBlackSide000 (Elem.outlineRect 0 7 BLACK_COLOR 0 1) = true :=
  ⟨(overlay_side_filter blackRookBoard (fun _ _ => false) ⟨Side.white, Style.squares⟩
      ⟨Side.black, Style.arrows⟩ none ⟨[], []⟩ ⟨[], []⟩ Style.squares).1,
   (overlay_side_filter blackRookBoard (fun _ _ => false) ⟨Side.white, Style.squares⟩
      ⟨Side.black, Style.arrows⟩ none ⟨[], []⟩ ⟨[], []⟩ Style.squares).2.1
     (Elem.outlineRect 0 7 BLACK_COLOR 0 1) (by decide)⟩

end Overchess
